import Mathlib

/- Verification development for the message-part classification, registry
dispatch, derived-data extraction and history-normalization pipeline of the
tanstack-start-mastra-example repository.  Every definition is a shallow
embedding of the corresponding TypeScript source, with JavaScript runtime
behaviour (truthiness, optional fields, duck typing) made explicit. -/

/- A model of untyped JavaScript values, used wherever the source manipulates
values of TypeScript type `unknown`.  Numbers are modelled by integers, which
is enough for the claims at hand (no claim depends on fractional values). -/
inductive JVal where
  | vstr (s : String)
  | vnum (n : Int)
  | vbool (b : Bool)
  | vnull
  | vobj (fields : List (String × JVal))
  | varr (elems : List JVal)

/- JavaScript truthiness of a value. -/
def JVal.truthy : JVal → Bool
  | .vstr s => s != ""
  | .vnum n => n != 0
  | .vbool b => b
  | .vnull => false
  | .vobj _ => true
  | .varr _ => true

/- Property access `v.k` on an object; `none` models `undefined`.  The data
produced by the app never has duplicate keys, so first-key lookup is exact. -/
def JVal.getField (v : JVal) (k : String) : Option JVal :=
  match v with
  | .vobj fs => (fs.find? (fun kv => kv.1 == k)).map (fun kv => kv.2)
  | _ => none

/- The JavaScript `String(v)` coercion.  It is exact for primitive values; the
repository only ever coerces string outputs, so composite values get a
canonical placeholder (for objects this is the actual JS behaviour). -/
def jsString : JVal → String
  | .vstr s => s
  | .vnum n => toString n
  | .vbool b => if b then "true" else "false"
  | .vnull => "null"
  | .vobj _ => "[object Object]"
  | .varr _ => "[array]"

/- isWeatherData from src/components/ai-elements/weather-card.tsx: an object
whose temperature field is a number and whose location and conditions fields
are strings.  Non-objects (and null) are rejected by the typeof guard. -/
def isWeatherData (v : JVal) : Bool :=
  match v with
  | .vobj _ =>
    (match v.getField "temperature" with | some (.vnum _) => true | _ => false) &&
    (match v.getField "location" with | some (.vstr _) => true | _ => false) &&
    (match v.getField "conditions" with | some (.vstr _) => true | _ => false)
  | _ => false

/- SourceData from src/components/chat/renderers/types.ts. -/
structure SourceData where
  url : String
  title : Option String
  description : Option String
  lastUpdated : Option String
deriving DecidableEq, Repr

/- One entry of a network step task toolResults array (duck-typed in the
source as Array of toolName/result records). -/
structure ToolResultEntry where
  toolName : Option String
  result : Option JVal

/- The task object of a network execution step, as described by the spec data
model and read by the source; extra models spread-preserved unknown keys. -/
structure NetworkTask where
  id : Option String
  type : Option String
  reason : Option String
  toolResults : Option (List ToolResultEntry)
  extra : List (String × JVal)

/- One step of a network execution trace. -/
structure NetworkStep where
  name : Option String
  status : Option String
  task : Option NetworkTask
  input : Option JVal
  output : Option JVal
  extra : List (String × JVal)

/- The data payload of a data-network part. -/
structure NetworkData where
  steps : Option (List NetworkStep)
  output : Option JVal
  extra : List (String × JVal)

/- A message part record: `type` is the discriminant, all payload fields are
optional (absent field = none), extra models further unknown keys. -/
structure UPart where
  type : String
  text : Option String
  data : Option NetworkData
  url : Option String
  title : Option String
  description : Option String
  lastUpdated : Option String
  source : Option SourceData
  extra : List (String × JVal)

/- Message metadata as read by filter-displayable-messages.ts. -/
structure MessageMetadata where
  mode : Option String
  completionResult : Option JVal
  extra : List (String × JVal)

/- A UIMessage: id, role (the source compares it with string literals),
ordered parts, optional metadata. -/
structure Message where
  id : String
  role : String
  parts : List UPart
  metadata : Option MessageMetadata

/- Helper constructors for concrete test messages (all payload fields empty
except the ones set). -/
def emptyPart (ty : String) : UPart :=
  { type := ty, text := none, data := none, url := none, title := none,
    description := none, lastUpdated := none, source := none, extra := [] }

def textPart (t : String) : UPart :=
  { emptyPart "text" with text := some t }

def dynamicToolPart : UPart :=
  emptyPart "dynamic-tool"

def networkPart (d : NetworkData) : UPart :=
  { emptyPart "data-network" with data := some d }

def mkMessage (mid role : String) (parts : List UPart) : Message :=
  { id := mid, role := role, parts := parts, metadata := none }

/- Character-list implementations of the JavaScript string operations used by
the source (String.prototype.includes, startsWith, trim).  They are written
by structural recursion so that concrete instances compute inside the
kernel. -/
def leadsWith : List Char → List Char → Bool
  | [], _ => true
  | _ :: _, [] => false
  | p :: ps, c :: cs => p == c && leadsWith ps cs

def listIncludes (pat : List Char) : List Char → Bool
  | [] => leadsWith pat []
  | c :: cs => leadsWith pat (c :: cs) || listIncludes pat cs

/- JS `s.startsWith(pat)`. -/
def strStartsWith (s pat : String) : Bool := leadsWith pat.data s.data

/- JS `s.includes(pat)`. -/
def strIncludes (s pat : String) : Bool := listIncludes pat.data s.data

/- JS `s.trim()`: drop whitespace from both ends (the conversations at hand
only use ASCII whitespace, where Char.isWhitespace agrees with JS). -/
def jsTrim (s : String) : String :=
  String.mk (((s.data.dropWhile Char.isWhitespace).reverse.dropWhile Char.isWhitespace).reverse)

/- NETWORK_MESSAGE_MARKER and isNetworkMessage from src/lib/utils.ts: a text
is a network-execution payload iff it contains the fixed marker substring. -/
def NETWORK_MESSAGE_MARKER : String := "\"isNetwork\":true"

def isNetworkMessage (text : String) : Bool :=
  strIncludes text NETWORK_MESSAGE_MARKER

/- getTextFromPart from src/lib/utils.ts: returns the text of a part whose
type is "text" and whose text key holds a string; `UPart.text = some t`
models exactly key-present-with-string-value. -/
def getTextFromPart (p : UPart) : Option String :=
  if p.type == "text" then p.text else none

/- Stage A, step rewrite, from src/lib/filter-displayable-messages.ts lines
28-39: if step.task?.reason is truthy (a non-empty string), rebuild the step
without the reason key, field by field, mirroring the JS rest-spreads; any
other step is returned unchanged. -/
def eraseReasonStep (step : NetworkStep) : NetworkStep :=
  match step.task with
  | some t =>
    match t.reason with
    | some r =>
      if r != "" then
        { name := step.name, status := step.status,
          task := some { id := t.id, type := t.type, reason := none,
                         toolResults := t.toolResults, extra := t.extra },
          input := step.input, output := step.output, extra := step.extra }
      else step
    | none => step
  | none => step

/- Stage A, part rewrite, lines 20-44: data-network parts with a data key get
their steps mapped through eraseReasonStep (steps may be absent); every other
part is returned unchanged. -/
def stripNetworkPart (p : UPart) : UPart :=
  if p.type == "data-network" then
    match p.data with
    | some d =>
      { p with data := some { d with steps := d.steps.map (List.map eraseReasonStep) } }
    | none => p
  else p

/- Stage A, message rewrite, lines 15-49: drop reasoning parts, then rewrite
data-network parts. -/
def stripMessage (m : Message) : Message :=
  { m with parts := (m.parts.filter (fun p => p.type != "reasoning")).map stripNetworkPart }

/- Stage B displayability of one part, lines 67-86: non-empty text (the JS
returns `text && text.trim() !== ''`, so the text must be truthy and its trim
non-empty), any tool- discriminant, data-network, or dynamic-tool. -/
def isDisplayablePart (p : UPart) : Bool :=
  if p.type == "text" then
    match getTextFromPart p with
    | some t => t != "" && jsTrim t != ""
    | none => false
  else if strStartsWith p.type "tool-" then true
  else if p.type == "data-network" then true
  else if p.type == "dynamic-tool" then true
  else false

/- Stage B message predicate, lines 50-89: drop completion-check messages
(metadata.mode is the string network and completionResult is truthy), drop
messages whose first text part content is truthy and contains the network
marker, and drop messages with no displayable part. -/
def keepMessage (m : Message) : Bool :=
  let isCompletionCheck :=
    match m.metadata with
    | some md =>
      md.mode == some "network" &&
        (match md.completionResult with
         | some v => v.truthy
         | none => false)
    | none => false
  if isCompletionCheck then false
  else
    let textContent := (m.parts.find? (fun p => p.type == "text")).bind getTextFromPart
    let isNet :=
      match textContent with
      | some t => t != "" && isNetworkMessage t
      | none => false
    if isNet then false
    else m.parts.any isDisplayablePart

/- Stage C helpers, lines 100-119. -/
def hasDynamicTool (m : Message) : Bool :=
  m.parts.any (fun p => p.type == "dynamic-tool")

/- A message that starts a dedup run: an assistant message with a
dynamic-tool part (line 100-103). -/
def isDynStart (m : Message) : Bool :=
  m.role == "assistant" && hasDynamicTool m

/- A message that continues a dedup run (lines 110-118): an assistant message
that has a dynamic-tool part or consists only of text parts. -/
def continuesRun (m : Message) : Bool :=
  m.role == "assistant" &&
    (hasDynamicTool m || m.parts.all (fun p => p.type == "text"))

/- Stage C, lines 91-130: the while loop keeps the first message of each
dynamic-tool run and skips the consecutive assistant messages that continue
it (the lookahead is exactly dropWhile continuesRun). -/
def dedupMessages : List Message → List Message
  | [] => []
  | m :: rest =>
    if isDynStart m then m :: dedupMessages (rest.dropWhile continuesRun)
    else m :: dedupMessages rest
termination_by l => l.length
decreasing_by
  · exact Nat.lt_succ_of_le (List.Sublist.length_le (List.dropWhile_sublist _))
  · simp

/- The full History Normalization Pipeline, filterDisplayableMessages from
src/lib/filter-displayable-messages.ts: Stage A map, Stage B filter, Stage C
dedup, preserving relative order of retained messages. -/
def filterDisplayableMessages (messages : List Message) : List Message :=
  dedupMessages ((messages.map stripMessage).filter keepMessage)

/- Unfolding equations for dedupMessages (it is defined by well-founded
recursion, so we expose its defining equations as lemmas). -/
theorem dedupMessages_nil : dedupMessages [] = [] := by
  simp [dedupMessages]

theorem dedupMessages_cons_dyn (m : Message) (rest : List Message)
    (h : isDynStart m = true) :
    dedupMessages (m :: rest) = m :: dedupMessages (rest.dropWhile continuesRun) := by
  rw [dedupMessages]
  simp [h]

theorem dedupMessages_cons_nodyn (m : Message) (rest : List Message)
    (h : isDynStart m = false) :
    dedupMessages (m :: rest) = m :: dedupMessages rest := by
  rw [dedupMessages]
  simp [h]

/- If dropWhile leaves a non-empty list, its head fails the predicate. -/
theorem dropWhile_cons_head_false {α : Type} {p : α → Bool} {l : List α} {x : α}
    {xs : List α} (h : l.dropWhile p = x :: xs) : p x = false := by
  have hh := List.head?_dropWhile_not p l
  rw [h] at hh
  simpa using hh

/- Every message kept by Stage C was present in its input. -/
theorem subset_dedupMessages (l : List Message) : ∀ x ∈ dedupMessages l, x ∈ l := by
  induction l using dedupMessages.induct with
  | case1 => simp [dedupMessages_nil]
  | case2 m rest h ih =>
    intro x hx
    rw [dedupMessages_cons_dyn m rest h] at hx
    rcases List.mem_cons.mp hx with h1 | h2
    · simp [h1]
    · exact List.mem_cons_of_mem m
        (List.Sublist.mem (ih x h2) (List.dropWhile_sublist _))
  | case3 m rest h ih =>
    intro x hx
    rw [dedupMessages_cons_nodyn m rest (by simpa using h)] at hx
    rcases List.mem_cons.mp hx with h1 | h2
    · simp [h1]
    · exact List.mem_cons_of_mem m (ih x h2)

/- Stage C always keeps the head of its input. -/
theorem dedupMessages_cons_head (m : Message) (rest : List Message) :
    ∃ t, dedupMessages (m :: rest) = m :: t := by
  by_cases h : isDynStart m = true
  · exact ⟨_, dedupMessages_cons_dyn m rest h⟩
  · exact ⟨_, dedupMessages_cons_nodyn m rest (by simpa using h)⟩

/- Stage C is idempotent: in its output, every run-starting message is
followed by a message that does not continue the run, so a second pass drops
nothing. -/
theorem dedupMessages_idem (l : List Message) :
    dedupMessages (dedupMessages l) = dedupMessages l := by
  induction l using dedupMessages.induct with
  | case1 => simp [dedupMessages_nil]
  | case2 m rest h ih =>
    rw [dedupMessages_cons_dyn m rest h, dedupMessages_cons_dyn m _ h]
    congr 1
    have hdw : (dedupMessages (rest.dropWhile continuesRun)).dropWhile continuesRun
        = dedupMessages (rest.dropWhile continuesRun) := by
      cases hr : rest.dropWhile continuesRun with
      | nil => simp [dedupMessages_nil]
      | cons y ys =>
        obtain ⟨t, ht⟩ := dedupMessages_cons_head y ys
        rw [ht]
        have hy : continuesRun y = false := dropWhile_cons_head_false hr
        simp [List.dropWhile_cons, hy]
    rw [hdw]
    exact ih
  | case3 m rest h ih =>
    have h' : isDynStart m = false := by simpa using h
    rw [dedupMessages_cons_nodyn m rest h', dedupMessages_cons_nodyn m _ h', ih]

/- Stage A rewriting never changes a part discriminant. -/
theorem stripNetworkPart_type (p : UPart) : (stripNetworkPart p).type = p.type := by
  unfold stripNetworkPart
  split
  · split <;> rfl
  · rfl

/- Erasing the routing reason from a step twice is the same as doing it once. -/
theorem eraseReasonStep_idem (s : NetworkStep) :
    eraseReasonStep (eraseReasonStep s) = eraseReasonStep s := by
  rcases s with ⟨n, st, task, inp, out, ex⟩
  cases task with
  | none => rfl
  | some t =>
    rcases t with ⟨tid, tty, reason, tres, tex⟩
    cases reason with
    | none => rfl
    | some r =>
      by_cases hr : r = ""
      · subst hr; rfl
      · simp [eraseReasonStep, hr]

/- Helper: mapping a function that fixes every element of a list is the
identity. -/
theorem map_eq_self_of_eq {α : Type} {f : α → α} :
    ∀ (l : List α), (∀ x ∈ l, f x = x) → l.map f = l := by
  intro l h
  induction l with
  | nil => rfl
  | cons a as ih =>
    simp only [List.map_cons, h a (by simp)]
    rw [ih (fun x hx => h x (by simp [hx]))]

/- Stage A part rewriting is idempotent. -/
theorem stripNetworkPart_idem (p : UPart) :
    stripNetworkPart (stripNetworkPart p) = stripNetworkPart p := by
  rcases p with ⟨ty, tx, dat, u, ti, de, lu, so, ex⟩
  by_cases hty : ty = "data-network"
  · subst hty
    cases dat with
    | none => rfl
    | some d =>
      rcases d with ⟨steps, out, dex⟩
      cases steps with
      | none => rfl
      | some ss =>
        simp only [stripNetworkPart]
        norm_num
        intro a _
        exact eraseReasonStep_idem a
  · simp [stripNetworkPart, hty]

/- Stage A message rewriting is idempotent. -/
theorem stripMessage_idem (m : Message) : stripMessage (stripMessage m) = stripMessage m := by
  rcases m with ⟨mid, role, parts, md⟩
  simp only [stripMessage]
  congr 1
  have h1 : ((parts.filter fun p => p.type != "reasoning").map stripNetworkPart).filter
      (fun p => p.type != "reasoning")
      = (parts.filter fun p => p.type != "reasoning").map stripNetworkPart := by
    apply List.filter_eq_self.mpr
    intro a ha
    obtain ⟨b, hb, rfl⟩ := List.mem_map.mp ha
    have hb2 := List.of_mem_filter (p := fun q : UPart => q.type != "reasoning") hb
    simpa [stripNetworkPart_type] using hb2
  rw [h1, List.map_map]
  exact List.map_congr_left fun p _ => stripNetworkPart_idem p

/-- C4: the History Normalization Pipeline is idempotent: applying
filterDisplayableMessages to its own output returns that output unchanged. -/
theorem normalization_idempotent (msgs : List Message) :
    filterDisplayableMessages (filterDisplayableMessages msgs)
      = filterDisplayableMessages msgs := by
  unfold filterDisplayableMessages
  have hmap : (dedupMessages ((msgs.map stripMessage).filter keepMessage)).map stripMessage
      = dedupMessages ((msgs.map stripMessage).filter keepMessage) := by
    apply map_eq_self_of_eq
    intro x hx
    have hx1 : x ∈ (msgs.map stripMessage).filter keepMessage :=
      subset_dedupMessages _ x hx
    have hx2 : x ∈ msgs.map stripMessage := List.mem_of_mem_filter hx1
    obtain ⟨y, _, rfl⟩ := List.mem_map.mp hx2
    exact stripMessage_idem y
  rw [hmap]
  have hfil : (dedupMessages ((msgs.map stripMessage).filter keepMessage)).filter keepMessage
      = dedupMessages ((msgs.map stripMessage).filter keepMessage) := by
    apply List.filter_eq_self.mpr
    intro x hx
    exact List.of_mem_filter (subset_dedupMessages _ x hx)
  rw [hfil, dedupMessages_idem]

/-- C5: no reasoning part ever survives normalization: every part of every
message of the pipeline output has a discriminant different from
"reasoning". -/
theorem reasoning_never_survives (msgs : List Message) (m : Message) (p : UPart)
    (hm : m ∈ filterDisplayableMessages msgs) (hp : p ∈ m.parts) :
    p.type ≠ "reasoning" := by
  unfold filterDisplayableMessages at hm
  have hm2 : m ∈ (msgs.map stripMessage).filter keepMessage :=
    subset_dedupMessages _ m hm
  have hm3 : m ∈ msgs.map stripMessage := List.mem_of_mem_filter hm2
  obtain ⟨m0, _, rfl⟩ := List.mem_map.mp hm3
  have hp2 : p ∈ (m0.parts.filter fun q => q.type != "reasoning").map stripNetworkPart := hp
  obtain ⟨q, hq, rfl⟩ := List.mem_map.mp hp2
  have hq2 := List.of_mem_filter (p := fun q : UPart => q.type != "reasoning") hq
  rw [stripNetworkPart_type]
  simpa using hq2

/- Concrete input for the C5 witness: a stored user message carrying a text
part and a reasoning part. -/
def c5msgs : List Message := [mkMessage "u1" "user" [textPart "hi", emptyPart "reasoning"]]

def c5out : Message := mkMessage "u1" "user" [textPart "hi"]

theorem c5eval : filterDisplayableMessages c5msgs = [c5out] := by
  unfold filterDisplayableMessages
  have h : (c5msgs.map stripMessage).filter keepMessage = [c5out] := rfl
  rw [h, dedupMessages_cons_nodyn c5out [] rfl, dedupMessages_nil]

/-- Witness for C5 at a concrete stored conversation. -/
theorem reasoning_never_survives_witness :
    c5out ∈ filterDisplayableMessages c5msgs ∧ textPart "hi" ∈ c5out.parts ∧
      (textPart "hi").type ≠ "reasoning" := by
  have h1 : c5out ∈ filterDisplayableMessages c5msgs := by
    rw [c5eval]
    exact List.mem_singleton.mpr rfl
  have h2 : textPart "hi" ∈ c5out.parts := by
    show textPart "hi" ∈ [textPart "hi"]
    exact List.mem_singleton.mpr rfl
  exact ⟨h1, h2, reasoning_never_survives c5msgs c5out (textPart "hi") h1 h2⟩

/- dropWhile over a block that satisfies the predicate skips the block. -/
theorem dropWhile_append_of_all {α : Type} {p : α → Bool} :
    ∀ (run : List α), (∀ x ∈ run, p x = true) →
      ∀ rest : List α, (run ++ rest).dropWhile p = rest.dropWhile p := by
  intro run h
  induction run with
  | nil => intro rest; simp
  | cons a as ih =>
    intro rest
    have ha : p a = true := h a (by simp)
    simp only [List.cons_append, List.dropWhile_cons, ha, if_true]
    exact ih (fun x hx => h x (by simp [hx])) rest

/- dropWhile is the identity when the head (if any) fails the predicate. -/
theorem dropWhile_eq_self_of_head_false {α : Type} {p : α → Bool} (l : List α)
    (h : ∀ y ∈ l.head?, p y = false) : l.dropWhile p = l := by
  cases l with
  | nil => rfl
  | cons a as => simp [List.dropWhile_cons, h a (by simp)]

/- Concrete messages for the C2 dedup run scenario. -/
def c2u1 : Message := mkMessage "u1" "user" [textPart "hi"]

def c2a1 : Message := mkMessage "a1" "assistant" [dynamicToolPart]

def c2a2 : Message := mkMessage "a2" "assistant" [dynamicToolPart]

def c2a3 : Message := mkMessage "a3" "assistant" [textPart "done"]

def c2u2 : Message := mkMessage "u2" "user" [textPart "bye"]

def c2input : List Message := [c2u1, c2a1, c2a2, c2a3, c2u2]

def c2expected : List Message := [c2u1, c2a1, c2u2]

/-- C2: Stage C keeps only the first message of a consecutive run: whenever an
assistant message with a dynamic-tool part is followed by consecutive
assistant messages that each have a dynamic-tool part or consist only of text
parts, dedup keeps the first message and drops the whole run; and the
concrete conversation [user, assistant(dynamic-tool A), assistant(dynamic-tool
B), assistant(text done), user] normalizes to [user, assistant(dynamic-tool
A), user]. -/
theorem dedup_run_keeps_first :
    (∀ (m : Message) (run rest : List Message),
      isDynStart m = true →
      (∀ x ∈ run, continuesRun x = true) →
      (∀ y ∈ rest.head?, continuesRun y = false) →
      dedupMessages (m :: (run ++ rest)) = m :: dedupMessages rest)
    ∧ filterDisplayableMessages c2input = c2expected := by
  constructor
  · intro m run rest hdyn hrun hrest
    rw [dedupMessages_cons_dyn m _ hdyn, dropWhile_append_of_all run hrun rest,
      dropWhile_eq_self_of_head_false rest hrest]
  · unfold filterDisplayableMessages
    have h : (c2input.map stripMessage).filter keepMessage
        = [c2u1, c2a1, c2a2, c2a3, c2u2] := rfl
    rw [h, dedupMessages_cons_nodyn c2u1 _ rfl,
      dedupMessages_cons_dyn c2a1 _ rfl]
    have hd : List.dropWhile continuesRun [c2a2, c2a3, c2u2] = [c2u2] := rfl
    rw [hd, dedupMessages_cons_nodyn c2u2 [] rfl, dedupMessages_nil]
    rfl

/-- Witness for the universally quantified part of C2, applied to the
concrete run. -/
theorem dedup_run_keeps_first_witness :
    dedupMessages (c2a1 :: ([c2a2, c2a3] ++ [c2u2])) = c2a1 :: dedupMessages [c2u2] := by
  apply dedup_run_keeps_first.1 c2a1 [c2a2, c2a3] [c2u2] rfl
  · intro x hx
    rcases List.mem_cons.mp hx with h1 | h2
    · subst h1; rfl
    · rcases List.mem_cons.mp h2 with h3 | h4
      · subst h3; rfl
      · simp at h4
  · intro y hy
    have h2 : c2u2 = y := by simpa using hy
    rw [← h2]
    rfl

/- Concrete data for C8: a network trace step whose routing reason is the
empty string (falsy in JS, so the source leaves the step untouched). -/
def c8task : NetworkTask :=
  { id := none, type := none, reason := some "", toolResults := none, extra := [] }

def c8step : NetworkStep :=
  { name := some "routing", status := some "success", task := some c8task,
    input := none, output := none, extra := [] }

def c8data : NetworkData := { steps := some [c8step], output := none, extra := [] }

def c8msg : Message := mkMessage "a1" "assistant" [networkPart c8data]

/-- Counterexample for C8 as stated: normalization does not remove the reason
field from every step's task: a stored message whose network-trace step has
task.reason equal to the empty string passes through the whole pipeline
unchanged, reason field included. -/
theorem stageA_reason_not_removed_cex :
    filterDisplayableMessages [c8msg] = [c8msg] ∧ c8task.reason = some "" := by
  constructor
  · unfold filterDisplayableMessages
    have h : ([c8msg].map stripMessage).filter keepMessage = [c8msg] := rfl
    rw [h, dedupMessages_cons_nodyn c8msg [] rfl, dedupMessages_nil]
  · rfl

/-- C8 amended: Stage A removes exactly the reason field from a step's task
and only when that reason is a non-empty string; parts that are not network
traces are unchanged, a data-network part only has its steps rewritten
elementwise (count and order preserved), every other field of the step and of
the task is preserved, and a step whose task is absent or whose reason is
absent or empty is returned entirely unchanged. -/
theorem stageA_frame :
    (∀ p : UPart, p.type ≠ "data-network" → stripNetworkPart p = p)
    ∧ (∀ (p : UPart) (d : NetworkData), p.type = "data-network" → p.data = some d →
        stripNetworkPart p
          = { p with data := some { d with steps := d.steps.map (List.map eraseReasonStep) } })
    ∧ (∀ ss : List NetworkStep, (ss.map eraseReasonStep).length = ss.length)
    ∧ (∀ (s : NetworkStep) (t : NetworkTask) (r : String),
        s.task = some t → t.reason = some r → r ≠ "" →
        eraseReasonStep s = { s with task := some { t with reason := none } })
    ∧ (∀ s : NetworkStep,
        (s.task = none ∨ ∃ t, s.task = some t ∧ (t.reason = none ∨ t.reason = some "")) →
        eraseReasonStep s = s) := by
  refine ⟨?_, ?_, ?_, ?_, ?_⟩
  · intro p hp
    simp [stripNetworkPart, hp]
  · intro p d hp hd
    simp [stripNetworkPart, hp, hd]
  · intro ss
    simp
  · intro s t r hst htr hr
    rcases s with ⟨n, st, task, inp, out, ex⟩
    simp only at hst
    subst hst
    rcases t with ⟨tid, tty, reason, tres, tex⟩
    simp only at htr
    subst htr
    simp [eraseReasonStep, hr]
  · intro s h
    rcases h with h1 | ⟨t, ht, h2⟩
    · simp [eraseReasonStep, h1]
    · rcases h2 with h2 | h2
      · simp [eraseReasonStep, ht, h2]
      · simp [eraseReasonStep, ht, h2]

/- Concrete step with a non-empty routing reason for the C8 witness. -/
def c8wtask : NetworkTask :=
  { id := some "t1", type := some "route", reason := some "because",
    toolResults := none, extra := [] }

def c8wstep : NetworkStep :=
  { name := some "routing", status := some "success", task := some c8wtask,
    input := none, output := none, extra := [] }

/-- Witness for C8 amended: erasing the reason of a concrete step keeps every
other field. -/
theorem stageA_frame_witness :
    eraseReasonStep c8wstep = { c8wstep with task := some { c8wtask with reason := none } } :=
  stageA_frame.2.2.2.1 c8wstep c8wtask "because" rfl rfl (by decide)

/- JS `x || undefined` on an optional string: the empty string is falsy and
collapses to undefined. -/
def orUndef : Option String → Option String
  | some "" => none
  | x => x

/- The sources contributed by one part in useSourcesExtractor
(src/hooks/use-sources-extractor.ts lines 25-51): a source-url part pushes
one normalized entry when its url is truthy; a source part reads
p.source || p (falling back to the part record itself) and pushes one entry
when the resulting url is truthy.  A part contributes through at most one of
the two branches since its type is a single string. -/
def sourcesOfPart (p : UPart) : List SourceData :=
  (if p.type == "source-url" then
    match p.url with
    | some u =>
      if u != "" then
        [{ url := u, title := orUndef p.title, description := orUndef p.description,
           lastUpdated := orUndef p.lastUpdated }]
      else []
    | none => []
  else []) ++
  (if p.type == "source" then
    let sd : SourceData :=
      match p.source with
      | some s => s
      | none =>
        { url := p.url.getD "", title := p.title, description := p.description,
          lastUpdated := p.lastUpdated }
    if sd.url != "" then
      [{ url := sd.url, title := orUndef sd.title, description := orUndef sd.description,
         lastUpdated := orUndef sd.lastUpdated }]
    else []
  else [])

/- useSourcesExtractor, lines 21-55: the for-loop pushing entries is a left
fold over the parts; the hook returns null when nothing was collected. -/
def useSourcesExtractor (allParts : List UPart) : Option (List SourceData) :=
  let sources := allParts.foldl (fun acc p => acc ++ sourcesOfPart p) []
  if sources.length > 0 then some sources else none

/- The accumulating loop concatenates per-part contributions in order. -/
theorem foldl_append_sourcesOfPart (l : List UPart) :
    ∀ acc, l.foldl (fun acc p => acc ++ sourcesOfPart p) acc
      = acc ++ l.flatMap sourcesOfPart := by
  induction l with
  | nil => intro acc; simp
  | cons a as ih =>
    intro acc
    simp only [List.foldl_cons, List.flatMap_cons, ih, List.append_assoc]

/- Concrete parts for the C1 counterexample. -/
def srcUrlPart (u : String) : UPart :=
  { emptyPart "source-url" with url := some u }

def srcEntry (u : String) : SourceData :=
  { url := u, title := none, description := none, lastUpdated := none }

/-- Counterexample for C1 as stated: source extraction does not deduplicate
by url: the input with sources a, b, a yields a, b, a, not a, b. -/
theorem sources_not_deduplicated_cex :
    useSourcesExtractor [srcUrlPart "a", srcUrlPart "b", srcUrlPart "a"]
        = some [srcEntry "a", srcEntry "b", srcEntry "a"]
      ∧ useSourcesExtractor [srcUrlPart "a", srcUrlPart "b", srcUrlPart "a"]
        ≠ some [srcEntry "a", srcEntry "b"] := by
  constructor
  · rfl
  · intro h
    rw [show useSourcesExtractor [srcUrlPart "a", srcUrlPart "b", srcUrlPart "a"]
        = some [srcEntry "a", srcEntry "b", srcEntry "a"] from rfl] at h
    simp at h

/-- C1 amended: source extraction keeps every url-bearing source occurrence,
normalized, in first-to-last input order, with no deduplication by url (the
result is the in-order concatenation of each part's contributions, null when
empty); in particular sources a, b, a extract to a, b, a. -/
theorem sources_extraction_in_order :
    (∀ allParts : List UPart,
      useSourcesExtractor allParts
        = (if (allParts.flatMap sourcesOfPart).length > 0
           then some (allParts.flatMap sourcesOfPart) else none))
    ∧ useSourcesExtractor [srcUrlPart "a", srcUrlPart "b", srcUrlPart "a"]
        = some [srcEntry "a", srcEntry "b", srcEntry "a"] := by
  constructor
  · intro allParts
    unfold useSourcesExtractor
    rw [foldl_append_sourcesOfPart allParts []]
    simp
  · rfl

/- A renderer registration, MessageRenderer from
src/components/chat/renderers/types.ts: an identity key, a matcher, an opaque
presentation component (modelled by a handle string) and an optional
priority.  The registry sorts with (b.priority ?? 0) - (a.priority ?? 0),
i.e. by descending defaulted priority. -/
structure Registration where
  type : String
  canRender : UPart → Bool
  component : String
  priority : Option Int

/- The defaulted priority used by the sort comparator. -/
def prioOf (r : Registration) : Int := r.priority.getD 0

/- The ordering used by updateSortedRenderers: a comes before b when its
defaulted priority is at least that of b.  JS Array.prototype.sort is stable,
and insertion sort with this reflexive-on-ties relation is the stable sort. -/
def regR (a b : Registration) : Prop := prioOf b ≤ prioOf a

instance : DecidableRel regR := fun a b => inferInstanceAs (Decidable (prioOf b ≤ prioOf a))

instance : IsTotal Registration regR := ⟨fun a b => le_total (prioOf b) (prioOf a)⟩

instance : IsTrans Registration regR :=
  ⟨fun _ _ _ h1 h2 => le_trans h2 h1⟩

/- RendererRegistry.getRenderer from src/components/chat/renderers/registry.ts
lines 60-71: scan the priority-sorted view and return the first registration
whose matcher accepts the part, or null.  The registry is modelled by its
list of current registrations in registration (Map insertion) order; the
sorted view is the stable descending sort that updateSortedRenderers
maintains.  This is a pure function, so determinism in the registrations and
the part is definitional. -/
def getRenderer (regs : List Registration) (p : UPart) : Option Registration :=
  (List.insertionSort regR regs).find? (fun r => r.canRender p)

/- Specification-side lookup, written from the words of the spec: the
matching registration with the highest priority, ties broken in favour of
the earlier registration. -/
def bestMatch (p : UPart) : List Registration → Option Registration
  | [] => none
  | x :: xs =>
    match bestMatch p xs with
    | none => if x.canRender p then some x else none
    | some c => if x.canRender p && prioOf c ≤ prioOf x then some x else some c

/- How find? interacts with inserting one element into a sorted list. -/
theorem find?_orderedInsert (m : Registration → Bool) (x : Registration) :
    ∀ l : List Registration, l.Sorted regR →
      (List.orderedInsert regR x l).find? m
        = (match l.find? m with
           | none => if m x then some x else none
           | some c => if m x && prioOf c ≤ prioOf x then some x else some c) := by
  intro l
  induction l with
  | nil =>
    intro _
    cases hmx : m x <;> simp [List.orderedInsert, List.find?_cons, hmx]
  | cons b bs ih =>
    intro hs
    obtain ⟨hb, hbs⟩ := List.sorted_cons.mp hs
    by_cases h1 : regR x b
    · rw [List.orderedInsert, if_pos h1]
      cases hf : List.find? m (b :: bs) with
      | none =>
        have hmb : m b = false := by
          cases hmb : m b
          · rfl
          · rw [List.find?_cons, hmb] at hf; exact absurd hf (by simp)
        cases hmx : m x <;>
          simp only [List.find?_cons, hmx, hmb, hf] <;> simp [hf]
      | some c =>
        have hcb : prioOf c ≤ prioOf x := by
          have hc : c ∈ b :: bs := List.mem_of_find?_eq_some hf
          rcases List.mem_cons.mp hc with rfl | hc2
          · exact h1
          · exact le_trans (hb c hc2) h1
        cases hmx : m x
        · simp only [List.find?_cons, hmx, hf, Bool.false_and, if_neg]
          simp
        · simp only [List.find?_cons, hmx, hf, Bool.true_and, hcb]
          simp [hcb]
    · rw [List.orderedInsert, if_neg h1]
      have h2 : ¬ prioOf b ≤ prioOf x := h1
      cases hmb : m b with
      | true =>
        have hbx : (prioOf b ≤ prioOf x) = False := by simp [h2]
        simp only [List.find?_cons, hmb]
        simp [hbx]
      | false =>
        simp only [List.find?_cons, hmb]
        exact ih hbs

/- Lookup over the sorted view agrees with the specification-side best
match. -/
theorem getRenderer_eq_bestMatch_aux (p : UPart) :
    ∀ regs : List Registration, getRenderer regs p = bestMatch p regs := by
  intro regs
  induction regs with
  | nil => rfl
  | cons x xs ih =>
    unfold getRenderer at ih ⊢
    show (List.orderedInsert regR x (List.insertionSort regR xs)).find?
        (fun r => r.canRender p) = _
    rw [find?_orderedInsert (fun r => r.canRender p) x (List.insertionSort regR xs)
        (List.sorted_insertionSort regR xs), ih]
    rfl

/- bestMatch returns none exactly when nothing matches. -/
theorem bestMatch_none_iff (p : UPart) :
    ∀ regs : List Registration,
      bestMatch p regs = none ↔ ∀ r ∈ regs, r.canRender p = false := by
  intro regs
  induction regs with
  | nil => simp [bestMatch]
  | cons x xs ih =>
    constructor
    · intro h
      unfold bestMatch at h
      cases hxs : bestMatch p xs with
      | none =>
        rw [hxs] at h
        intro r hr
        rcases List.mem_cons.mp hr with rfl | hr2
        · cases hc : r.canRender p
          · rfl
          · rw [hc] at h; exact absurd h (by simp)
        · exact (ih.mp hxs) r hr2
      | some c =>
        rw [hxs] at h
        by_cases hc : (x.canRender p && decide (prioOf c ≤ prioOf x)) = true <;>
          simp [hc] at h
    · intro h
      have hx : x.canRender p = false := h x (by simp)
      have hxs : bestMatch p xs = none := ih.mpr (fun r hr => h r (by simp [hr]))
      unfold bestMatch
      rw [hxs, hx]
      simp

/- A successful bestMatch is a maximal-priority match from the list. -/
theorem bestMatch_some_spec (p : UPart) :
    ∀ (regs : List Registration) (r : Registration), bestMatch p regs = some r →
      r ∈ regs ∧ r.canRender p = true ∧
        ∀ q ∈ regs, q.canRender p = true → prioOf q ≤ prioOf r := by
  intro regs
  induction regs with
  | nil => intro r h; exact absurd h (by simp [bestMatch])
  | cons x xs ih =>
    intro r h
    unfold bestMatch at h
    cases hxs : bestMatch p xs with
    | none =>
      rw [hxs] at h
      cases hx : x.canRender p
      · rw [hx] at h; exact absurd h (by simp)
      · rw [hx] at h
        simp only [if_true] at h
        have hr : x = r := by simpa using h
        subst hr
        refine ⟨by simp, hx, ?_⟩
        intro q hq hcq
        rcases List.mem_cons.mp hq with rfl | hq2
        · exact le_refl _
        · exact absurd hcq (by simp [(bestMatch_none_iff p xs).mp hxs q hq2])
    | some c =>
      rw [hxs] at h
      have h' : (if (x.canRender p && decide (prioOf c ≤ prioOf x)) = true
          then some x else some c) = some r := h
      obtain ⟨hcmem, hcren, hcmax⟩ := ih c hxs
      by_cases hcond : (x.canRender p && decide (prioOf c ≤ prioOf x)) = true
      · rw [if_pos hcond] at h'
        have hr : x = r := by simpa using h'
        subst hr
        have hcond2 : x.canRender p = true ∧ prioOf c ≤ prioOf x := by
          have hc2 := hcond
          simp only [Bool.and_eq_true, decide_eq_true_eq] at hc2
          exact hc2
        have hx : x.canRender p = true := hcond2.1
        have hcx : prioOf c ≤ prioOf x := hcond2.2
        refine ⟨by simp, hx, ?_⟩
        intro q hq hcq
        rcases List.mem_cons.mp hq with rfl | hq2
        · exact le_refl _
        · exact le_trans (hcmax q hq2 hcq) hcx
      · rw [if_neg hcond] at h'
        have hr : c = r := by simpa using h'
        subst hr
        refine ⟨by simp [hcmem], hcren, ?_⟩
        intro q hq hcq
        rcases List.mem_cons.mp hq with rfl | hq2
        · by_cases hx : q.canRender p = true
          · have : ¬ prioOf c ≤ prioOf q := by
              intro hle
              exact hcond (by simp [hx, hle])
            exact le_of_not_le this
          · exact absurd hcq hx
        · exact hcmax q hq2 hcq

/- Concrete registrations for the lookup example of C6: A with priority 10
and B with priority 5, both matching every part, B registered first. -/
def regA : Registration :=
  { type := "A", canRender := fun _ => true, component := "A.render", priority := some 10 }

def regB : Registration :=
  { type := "B", canRender := fun _ => true, component := "B.render", priority := some 5 }

def partP : UPart := emptyPart "anything"

/-- C6: registry lookup is priority-respecting and deterministic: it equals
the specification-side best match (matching registration of highest defaulted
priority, ties broken in favour of the earlier registration), a successful
lookup is a maximal-priority match, lookup returns null exactly when no
matcher accepts the part, and with registrations A (priority 10) and B
(priority 5) both matching part P, lookup returns A.  Lookup is a pure
function of the registrations and the part, so determinism is definitional. -/
theorem registry_lookup_spec :
    (∀ (regs : List Registration) (p : UPart), getRenderer regs p = bestMatch p regs)
    ∧ (∀ (regs : List Registration) (p : UPart) (r : Registration),
        getRenderer regs p = some r →
        r ∈ regs ∧ r.canRender p = true ∧
          ∀ q ∈ regs, q.canRender p = true → prioOf q ≤ prioOf r)
    ∧ (∀ (regs : List Registration) (p : UPart),
        getRenderer regs p = none ↔ ∀ r ∈ regs, r.canRender p = false)
    ∧ getRenderer [regB, regA] partP = some regA := by
  refine ⟨?_, ?_, ?_, ?_⟩
  · intro regs p
    exact getRenderer_eq_bestMatch_aux p regs
  · intro regs p r h
    rw [getRenderer_eq_bestMatch_aux p regs] at h
    exact bestMatch_some_spec p regs r h
  · intro regs p
    rw [getRenderer_eq_bestMatch_aux p regs]
    exact bestMatch_none_iff p regs
  · rfl

/-- Witness for C6: from the concrete lookup, B's priority is bounded by A's
and A matches. -/
theorem registry_lookup_spec_witness :
    regA.canRender partP = true ∧ prioOf regB ≤ prioOf regA := by
  have h := registry_lookup_spec.2.1 [regB, regA] partP regA rfl
  exact ⟨h.2.1, h.2.2 regB (by simp) rfl⟩

/- For C3 the part is an arbitrary record: the discriminant key may be absent
(none) or hold any JS value.  The Bool fields model the JS `in` checks of the
type guards; toolName and name model the fields the weather matcher reads. -/
structure RawPart where
  type : Option JVal
  hasTextKey : Bool
  hasDataKey : Bool
  hasOutputKey : Bool
  toolName : Option JVal
  name : Option JVal

/- JS strict equality of a possibly-absent value with a string literal. -/
def jsEqStrV (v : Option JVal) (s : String) : Bool :=
  match v with
  | some (.vstr t) => t == s
  | _ => false

/- JS `v.startsWith(pat)`: a TypeError (modelled by Except.error) unless v is
a string - calling a method on undefined or a non-string has no fallback. -/
def jsStartsWithV (v : Option JVal) (pat : String) : Except Unit Bool :=
  match v with
  | some (.vstr t) => .ok (strStartsWith t pat)
  | _ => .error ()

/- JS `a || b` on possibly-absent values. -/
def jsOrV (a b : Option JVal) : Option JVal :=
  match a with
  | some v => if v.truthy then some v else b
  | none => b

/- The type guards of src/components/chat/renderers/types.ts lines 224-250,
with JS evaluation made explicit.  Only isToolPart dereferences the
discriminant with a method call, so only it can throw. -/
def isTextPartE (p : RawPart) : Except Unit Bool :=
  .ok (jsEqStrV p.type "text" && p.hasTextKey)

def isReasoningPartE (p : RawPart) : Except Unit Bool :=
  .ok (jsEqStrV p.type "reasoning" && p.hasTextKey)

def isNetworkPartE (p : RawPart) : Except Unit Bool :=
  .ok (jsEqStrV p.type "data-network" && p.hasDataKey)

def isDynamicToolPartE (p : RawPart) : Except Unit Bool :=
  .ok (jsEqStrV p.type "dynamic-tool" && p.hasOutputKey)

def isToolPartE (p : RawPart) : Except Unit Bool :=
  jsStartsWithV p.type "tool-"

/- The weather renderer matcher (weather-renderer.tsx): isToolPart first,
then the tool name read as toolName || name compared with the two known
names. -/
def weatherCanRenderE (p : RawPart) : Except Unit Bool :=
  match isToolPartE p with
  | .error e => .error e
  | .ok b =>
    if b then
      .ok (jsEqStrV (jsOrV p.toolName p.name) "get-weather"
        || jsEqStrV (jsOrV p.toolName p.name) "weatherTool")
    else .ok false

/- A registry entry with a JS-faithful, possibly-throwing matcher. -/
structure JsRenderer where
  type : String
  priority : Option Int
  canRenderE : RawPart → Except Unit Bool

def jsPrioOf (r : JsRenderer) : Int := r.priority.getD 0

def jsRegR (a b : JsRenderer) : Prop := jsPrioOf b ≤ jsPrioOf a

instance : DecidableRel jsRegR := fun a b => inferInstanceAs (Decidable (jsPrioOf b ≤ jsPrioOf a))

/- The six default renderers in registration order
(src/components/chat/renderers/index.ts lines 33-38) with their declared
priorities. -/
def defaultJsRenderers : List JsRenderer :=
  [ { type := "text", priority := some 10, canRenderE := isTextPartE },
    { type := "reasoning", priority := some 20, canRenderE := isReasoningPartE },
    { type := "data-network", priority := some 15, canRenderE := isNetworkPartE },
    { type := "tool", priority := some 5, canRenderE := isToolPartE },
    { type := "dynamic-tool", priority := some 8, canRenderE := isDynamicToolPartE },
    { type := "tool-call", priority := some 50, canRenderE := weatherCanRenderE } ]

/- getRenderer over throwing matchers: scan the priority-sorted view; a
thrown TypeError propagates. -/
def findFirstE : List JsRenderer → RawPart → Except Unit (Option JsRenderer)
  | [], _ => .ok none
  | r :: rs, p =>
    match r.canRenderE p with
    | .error e => .error e
    | .ok true => .ok (some r)
    | .ok false => findFirstE rs p

def getRendererE (p : RawPart) : Except Unit (Option JsRenderer) :=
  findFirstE (List.insertionSort jsRegR defaultJsRenderers) p

/- A part-shaped record with no discriminant at all. -/
def malformedPart : RawPart :=
  { type := none, hasTextKey := false, hasDataKey := false, hasOutputKey := false,
    toolName := none, name := none }

/-- Counterexample for C3 as stated: classification and lookup are not total
over malformed parts: on a record whose type key is absent, isToolPart
throws a TypeError, and registry lookup (whose highest-priority entry, the
weather matcher, calls isToolPart first) propagates that TypeError instead of
treating the part as unclassified. -/
theorem malformed_lookup_throws_cex :
    isToolPartE malformedPart = .error () ∧ getRendererE malformedPart = .error () :=
  ⟨rfl, rfl⟩

/- A scan over matchers that all return cleanly returns cleanly. -/
theorem findFirstE_ok (p : RawPart) :
    ∀ rs : List JsRenderer, (∀ r ∈ rs, ∃ b, r.canRenderE p = .ok b) →
      ∃ o, findFirstE rs p = .ok o := by
  intro rs
  induction rs with
  | nil => intro _; exact ⟨none, rfl⟩
  | cons r rest ih =>
    intro h
    obtain ⟨b, hb⟩ := h r (by simp)
    cases b with
    | true => exact ⟨some r, by rw [findFirstE, hb]⟩
    | false =>
      obtain ⟨o, ho⟩ := ih (fun q hq => h q (by simp [hq]))
      exact ⟨o, by rw [findFirstE, hb]; exact ho⟩

/-- C3 amended: classification and renderer lookup are total for every part
whose discriminant is a string: no type guard throws and lookup returns
cleanly (some renderer or none).  A part whose discriminant is absent or not
a string is not handled gracefully: isToolPart (reached through the
highest-priority weather matcher) throws a TypeError which propagates out of
getRenderer, as the counterexample shows. -/
theorem lookup_total_on_string_discriminant :
    ∀ (p : RawPart) (s : String), p.type = some (JVal.vstr s) →
      (∃ b, isToolPartE p = .ok b) ∧ (∃ o, getRendererE p = .ok o) := by
  intro p s h
  have htool : isToolPartE p = .ok (strStartsWith s "tool-") := by
    rw [isToolPartE, h]
    rfl
  refine ⟨⟨_, htool⟩, ?_⟩
  apply findFirstE_ok
  intro r hr
  have hmem : r ∈ defaultJsRenderers :=
    ((List.perm_insertionSort jsRegR defaultJsRenderers).mem_iff).mp hr
  simp only [defaultJsRenderers, List.mem_cons, List.mem_singleton] at hmem
  rcases hmem with rfl | rfl | rfl | rfl | rfl | rfl | hfalse
  · exact ⟨_, rfl⟩
  · exact ⟨_, rfl⟩
  · exact ⟨_, rfl⟩
  · exact ⟨_, htool⟩
  · exact ⟨_, rfl⟩
  · show ∃ b, weatherCanRenderE p = .ok b
    rw [weatherCanRenderE, htool]
    cases strStartsWith s "tool-"
    · exact ⟨false, rfl⟩
    · exact ⟨_, rfl⟩
  · exact absurd hfalse (by simp)

/- A well-formed part for the C3 witness: a text-shaped record. -/
def wellFormedTextRaw : RawPart :=
  { type := some (JVal.vstr "text"), hasTextKey := true, hasDataKey := false,
    hasOutputKey := false, toolName := none, name := none }

/-- Witness for C3 amended at a concrete string-discriminant part. -/
theorem lookup_total_on_string_discriminant_witness :
    wellFormedTextRaw.type = some (JVal.vstr "text") ∧
      (∃ b, isToolPartE wellFormedTextRaw = .ok b) ∧
      (∃ o, getRendererE wellFormedTextRaw = .ok o) :=
  ⟨rfl, lookup_total_on_string_discriminant wellFormedTextRaw "text" rfl⟩

/- One parsed citation (CitationMatch in use-text-with-citations.ts): the
segment index, the 1-based citation number, and the resolved source (null
when out of range). -/
structure CitationMatch where
  index : Nat
  number : Int
  source : Option SourceData
deriving DecidableEq, Repr

structure TextWithCitationsResult where
  hasCitations : Bool
  segments : List String
  citations : List CitationMatch
deriving DecidableEq, Repr

/- Leftmost full match of the citation regex: scan for an opening bracket
followed by at least one digit and a closing bracket, returning the digit
run.  The digit run is maximal, and since the character after a maximal digit
run is never a digit, greedy matching with backtracking succeeds exactly when
that character is the closing bracket - so this scan is the exact leftmost
match semantics of the JS regex. -/
def firstCitationDigits : List Char → Option String
  | [] => none
  | '[' :: rest =>
    let ds := rest.takeWhile Char.isDigit
    if !ds.isEmpty && ((rest.dropWhile Char.isDigit).head? == some ']') then
      some (String.mk ds)
    else firstCitationDigits rest
  | _ :: rest => firstCitationDigits rest

/- JS `text.split(/(\[\d+\])/)` as a one-pass state machine: lit is the
literal accumulated since the last match, buf (when present) is a pending
open bracket plus digit run.  Matches are found left to right and the capture
group keeps each marker as its own segment, so the output alternates
literal, marker, literal, ..., literal. -/
def splitCitAux : List Char → String → Option String → List String
  | [], lit, none => [lit]
  | [], lit, some buf => [lit ++ buf]
  | c :: rest, lit, none =>
    if c == '[' then splitCitAux rest lit (some "[")
    else splitCitAux rest (lit.push c) none
  | c :: rest, lit, some buf =>
    if c.isDigit then splitCitAux rest lit (some (buf.push c))
    else if c == ']' && 2 ≤ buf.length then
      lit :: (buf.push ']') :: splitCitAux rest "" none
    else if c == '[' then splitCitAux rest (lit ++ buf) (some "[")
    else splitCitAux rest (lit ++ buf.push c) none

def splitCitations (text : String) : List String :=
  splitCitAux text.data "" none

/- Number.parseInt on a non-empty digit string. -/
def natOfDigits (s : String) : Nat :=
  s.data.foldl (fun acc c => acc * 10 + (c.toNat - ('0').toNat)) 0

/- JS `sources[i] || null` for an integer index (negative indices give
undefined; the elements are objects, hence truthy). -/
def getAtInt (l : List SourceData) (i : Int) : Option SourceData :=
  if i < 0 then none else l.get? i.toNat

/- useTextWithCitations from src/hooks/use-text-with-citations.ts lines
42-78: without citation markers or without a non-empty source list the text
is returned as a single untouched segment with hasCitations false; otherwise
the text is split on the markers and each marker segment yields a citation
resolving sources[number - 1]. -/
def useTextWithCitations (text : String) (sources : Option (List SourceData)) :
    TextWithCitationsResult :=
  let hasCit := (firstCitationDigits text.data).isSome
  let noSources := match sources with | none => true | some l => l.isEmpty
  if !hasCit || noSources then
    { hasCitations := false, segments := [text], citations := [] }
  else
    let srcs := match sources with | none => [] | some l => l
    let segments := splitCitations text
    let citations := segments.enum.filterMap (fun iseg =>
      match firstCitationDigits iseg.2.data with
      | some ds =>
        let citationNumber : Int := (natOfDigits ds : Int) - 1
        some { index := iseg.1, number := citationNumber + 1,
               source := getAtInt srcs citationNumber }
      | none => none)
    { hasCitations := true, segments := segments, citations := citations }

/-- C9: citation parsing round-trip on the concrete example: the text is
split into the five expected segments, the citations sit at segment indices
1 and 3 and resolve to the sources with url x and y; and parsing is a pure
function of text and sources, so re-parsing yields the identical result. -/
theorem citation_roundtrip :
    useTextWithCitations "See [1] and [2]." (some [srcEntry "x", srcEntry "y"])
      = { hasCitations := true,
          segments := ["See ", "[1]", " and ", "[2]", "."],
          citations := [ { index := 1, number := 1, source := some (srcEntry "x") },
                         { index := 3, number := 2, source := some (srcEntry "y") } ] }
    ∧ (∀ (t : String) (s : Option (List SourceData)),
        useTextWithCitations t s = useTextWithCitations t s) :=
  ⟨by decide, fun _ _ => rfl⟩

/-- C10: with a null or empty source list, parsing reports no citations and
returns the whole text as one untouched segment, for every text, including
texts containing bracketed markers. -/
theorem citations_empty_sources (text : String) :
    useTextWithCitations text none
        = { hasCitations := false, segments := [text], citations := [] }
      ∧ useTextWithCitations text (some [])
        = { hasCitations := false, segments := [text], citations := [] } := by
  constructor
  · unfold useTextWithCitations
    simp
  · unfold useTextWithCitations
    simp

/- Stream status of a conversation (types.ts line 259). -/
inductive StreamStatus where
  | ready
  | streaming
  | submitted
  | error
deriving DecidableEq, Repr

def statusReady : StreamStatus → Bool
  | .ready => true
  | _ => false

/- Whether a step carries a truthy routing reason (use-network-data.ts line
46-48: networkData.steps?.find(s => s.task?.reason)). -/
def stepReasonTruthy (s : NetworkStep) : Bool :=
  match s.task with
  | some t =>
    match t.reason with
    | some r => r != ""
    | none => false
  | none => false

/- useNetworkData reasoning extraction: the reason of the first step with a
truthy task.reason, else null. -/
def networkReasoning (nd : NetworkData) : Option String :=
  match nd.steps with
  | none => none
  | some steps =>
    match steps.find? stepReasonTruthy with
    | some st =>
      match st.task with
      | some t =>
        match t.reason with
        | some r => if r != "" then some r else none
        | none => none
      | none => none
    | none => none

/- useNetworkData sources extraction (lines 52-59): the sources field of the
output of the first web-search step with truthy output, when it is a
non-empty array (the source reads output.sources without validation; the app
only ever stores arrays there). -/
def networkSources (nd : NetworkData) : Option (List JVal) :=
  match nd.steps with
  | none => none
  | some steps =>
    match steps.find? (fun s => s.name == some "web-search" &&
        (match s.output with | some v => v.truthy | none => false)) with
    | some st =>
      match st.output with
      | some out =>
        match out.getField "sources" with
        | some (.varr l) => if l.length > 0 then some l else none
        | _ => none
      | none => none
    | none => none

/- useNetworkData output handling (lines 62-63): hasOutput when the output is
neither undefined nor null, and then the String coercion of it. -/
def networkHasOutput (nd : NetworkData) : Bool :=
  match nd.output with
  | some .vnull => false
  | some _ => true
  | none => false

def networkOutput (nd : NetworkData) : Option String :=
  match nd.output with
  | some .vnull => none
  | some v => some (jsString v)
  | none => none

/- The useNetworkData hook guards against an undefined data payload. -/
def ndReasoning : Option NetworkData → Option String
  | none => none
  | some d => networkReasoning d

def ndSources : Option NetworkData → Option (List JVal)
  | none => none
  | some d => networkSources d

def ndHasOutput : Option NetworkData → Bool
  | none => false
  | some d => networkHasOutput d

def ndOutput : Option NetworkData → Option String
  | none => none
  | some d => networkOutput d

/- One entry matching the weather scan of extractWeatherFromNetwork
(network-renderer.tsx lines 17-27). -/
def weatherResultMatch (e : ToolResultEntry) : Bool :=
  e.toolName == some "weatherTool" &&
    (match e.result with
     | some v => v.truthy && isWeatherData v
     | none => false)

def weatherFromSteps : List NetworkStep → Option JVal
  | [] => none
  | s :: rest =>
    match s.task with
    | some t =>
      match t.toolResults with
      | some trs =>
        match trs.find? weatherResultMatch with
        | some e => e.result
        | none => weatherFromSteps rest
      | none => weatherFromSteps rest
    | none => weatherFromSteps rest

def extractWeatherFromNetwork : Option NetworkData → Option JVal
  | none => none
  | some d =>
    match d.steps with
    | none => none
    | some steps => weatherFromSteps steps

/- The abstract rendered output of the network renderer: one displayable
block per JSX child, in document order. -/
inductive RenderItem where
  | reasoningBlock (text : String)
  | weatherBlock (data : JVal)
  | traceBlock (data : Option NetworkData)
  | sourcesBlock (sources : List JVal)
  | outputBlock (text : String)

/- The conditional children of the network renderer, one definition per JSX
slot. -/
def reasonItems (nd : Option NetworkData) : List RenderItem :=
  match ndReasoning nd with
  | some r => if r != "" then [RenderItem.reasoningBlock r] else []
  | none => []

def weatherItems (nd : Option NetworkData) : List RenderItem :=
  match extractWeatherFromNetwork nd with
  | some w => if w.truthy then [RenderItem.weatherBlock w] else []
  | none => []

def sourceItems (nd : Option NetworkData) : List RenderItem :=
  match ndSources nd with
  | some ss => if ss.length > 0 then [RenderItem.sourcesBlock ss] else []
  | none => []

def outputItems (nd : Option NetworkData) : List RenderItem :=
  match ndOutput nd with
  | some t => if t != "" then [RenderItem.outputBlock t] else []
  | none => []

/- NetworkRendererComponent (network-renderer.tsx lines 36-124): the fallback
is shown exactly when there is no sibling text part, the stream is settled
(ready), this is the last message, and the network data has completed
output; the fallback block appends the raw output text after reasoning,
weather card, raw trace and sources; the regular branch renders the same
children without the output text. -/
def networkRender (networkData : Option NetworkData) (hasTextPart : Bool)
    (isLastMessage : Bool) (status : StreamStatus) : List RenderItem :=
  if !hasTextPart && statusReady status && isLastMessage && ndHasOutput networkData then
    (match ndReasoning networkData with
     | some r => if r != "" then [RenderItem.reasoningBlock r] else []
     | none => []) ++
    (match extractWeatherFromNetwork networkData with
     | some w => if w.truthy then [RenderItem.weatherBlock w] else []
     | none => []) ++
    [RenderItem.traceBlock networkData] ++
    (match ndSources networkData with
     | some ss => if ss.length > 0 then [RenderItem.sourcesBlock ss] else []
     | none => []) ++
    (match ndOutput networkData with
     | some t => if t != "" then [RenderItem.outputBlock t] else []
     | none => [])
  else
    (match ndReasoning networkData with
     | some r => if r != "" then [RenderItem.reasoningBlock r] else []
     | none => []) ++
    (match extractWeatherFromNetwork networkData with
     | some w => if w.truthy then [RenderItem.weatherBlock w] else []
     | none => []) ++
    [RenderItem.traceBlock networkData] ++
    (match ndSources networkData with
     | some ss => if ss.length > 0 then [RenderItem.sourcesBlock ss] else []
     | none => [])

/- The last element of a list ending in a singleton. -/
theorem getLast?_append_singleton {α : Type} (l : List α) (x : α) :
    (l ++ [x]).getLast? = some x := by
  rw [List.getLast?_append_cons]
  rfl

/- No output block ever occurs among the non-output children. -/
theorem outputBlock_not_mem_front (nd : Option NetworkData) (t : String) :
    RenderItem.outputBlock t ∉
      reasonItems nd ++ weatherItems nd ++ [RenderItem.traceBlock nd] ++ sourceItems nd := by
  intro hmem
  simp only [List.mem_append, List.mem_singleton] at hmem
  rcases hmem with ((h | h) | h) | h
  · unfold reasonItems at h
    split at h
    · split at h <;> simp at h
    · simp at h
  · unfold weatherItems at h
    split at h
    · split at h <;> simp at h
    · simp at h
  · simp at h
  · unfold sourceItems at h
    split at h
    · split at h <;> simp at h
    · simp at h

/-- C7: fallback synthesis for network traces: when the message has no
sibling text part, the stream status is ready, the message is last, and the
network data has completed output, the rendered output is the single block
reasoning, weather payload, raw trace, sources, raw output text, in exactly
that order (each slot present according to its extraction), with the raw
output text as the final block when non-empty; when any of the four
conditions fails, no output-text block is synthesized at all. -/
theorem network_fallback_synthesis :
    (∀ (nd : Option NetworkData) (hasText isLast : Bool) (status : StreamStatus),
      hasText = false → status = StreamStatus.ready → isLast = true →
      ndHasOutput nd = true →
      networkRender nd hasText isLast status
          = reasonItems nd ++ weatherItems nd ++ [RenderItem.traceBlock nd]
              ++ sourceItems nd ++ outputItems nd
        ∧ ∀ t, ndOutput nd = some t → t ≠ "" →
            (networkRender nd hasText isLast status).getLast?
              = some (RenderItem.outputBlock t))
    ∧ (∀ (nd : Option NetworkData) (hasText isLast : Bool) (status : StreamStatus),
        ¬(hasText = false ∧ status = StreamStatus.ready ∧ isLast = true
            ∧ ndHasOutput nd = true) →
        ∀ t, RenderItem.outputBlock t ∉ networkRender nd hasText isLast status) := by
  constructor
  · intro nd hasText isLast status h1 h2 h3 h4
    subst h1; subst h2; subst h3
    have heq : networkRender nd false true StreamStatus.ready
        = reasonItems nd ++ weatherItems nd ++ [RenderItem.traceBlock nd]
            ++ sourceItems nd ++ outputItems nd := by
      unfold networkRender
      rw [h4]
      rfl
    refine ⟨heq, ?_⟩
    intro t ht htne
    have hout : outputItems nd = [RenderItem.outputBlock t] := by
      unfold outputItems
      rw [ht]
      simp [htne]
    rw [heq, hout, getLast?_append_singleton]
  · intro nd hasText isLast status hncond t hmem
    unfold networkRender at hmem
    split at hmem
    · rename_i hcond
      apply hncond
      have h1 := hcond
      simp only [Bool.and_eq_true, Bool.not_eq_true'] at h1
      obtain ⟨⟨⟨ha, hb⟩, hc⟩, hd⟩ := h1
      refine ⟨ha, ?_, hc, hd⟩
      cases status
      · rfl
      · exact absurd hb (by simp [statusReady])
      · exact absurd hb (by simp [statusReady])
      · exact absurd hb (by simp [statusReady])
    · exact outputBlock_not_mem_front nd t hmem

/- Concrete network data for the C7 witness: one web-search step with a
routing reason and sources, and a completed string output. -/
def c7step : NetworkStep :=
  { name := some "web-search", status := some "success",
    task := some { id := some "t1", type := some "tool",
                   reason := some "need web results", toolResults := none, extra := [] },
    input := none,
    output := some (JVal.vobj [("sources", JVal.varr [JVal.vobj [("url", JVal.vstr "https://a")]]),
                               ("text", JVal.vstr "res")]),
    extra := [] }

def c7nd : Option NetworkData :=
  some { steps := some [c7step], output := some (JVal.vstr "All done"), extra := [] }

/-- Witness for C7 at a concrete completed network trace. -/
theorem network_fallback_synthesis_witness :
    networkRender c7nd false true StreamStatus.ready
        = reasonItems c7nd ++ weatherItems c7nd ++ [RenderItem.traceBlock c7nd]
            ++ sourceItems c7nd ++ outputItems c7nd
      ∧ (networkRender c7nd false true StreamStatus.ready).getLast?
        = some (RenderItem.outputBlock "All done") := by
  have h := network_fallback_synthesis.1 c7nd false true StreamStatus.ready rfl rfl rfl rfl
  exact ⟨h.1, h.2 "All done" rfl (by decide)⟩
